import Mathlib

/-!
Verification of the event-camera biasing scripts.

A shallow embedding of the Python sources:
* `make_event_image` (grayscale, per-event loop) from `live_dual_display.py`
  and `combined_live_ON_bias_change.py`;
* `make_event_image` (grayscale, vectorized numpy scatter) from
  `autobiasing_ON.py`;
* `make_event_image` (dual-color, vectorized numpy masked scatter) from
  `play_aedat.py` and `six_bias_record.py`;
* the autobias hysteresis controller and inline rate estimator from the
  main loop of `autobiasing_ON.py`;
* the recording latch of `six_bias_record.py`;
* `load_and_filter` from `RECORDS/deneme.py`.

Machine integers are modelled as `Nat`/`Int` (event coordinates are uint16,
timestamps int64, none of the arithmetic here can overflow those widths);
`time.time()` wall-clock floats and the computed event rates are modelled
as rationals.  Numpy fancy-index assignment raises `IndexError` when any
index is out of range and otherwise applies writes in order (last write
wins on duplicate indices); the rasterizers are therefore modelled as
`Option`-returning functions that yield `none` exactly when some event of
the batch is out of bounds.
-/

/-- One DVS event: `[timestamp, x, y, polarity]` as in `events.numpy()`. -/
structure Ev where
  timestamp : Int
  x : Nat
  y : Nat
  polarity : Bool
deriving DecidableEq, Repr

/-- Sensor resolution `(w, h)` as returned by `getEventResolution()`. -/
structure Resolution where
  width : Nat
  height : Nat
deriving DecidableEq, Repr

/-- `True` iff the event's coordinates index into an `(h, w)` numpy buffer
without raising `IndexError` (coordinates are unsigned, so only the upper
bounds matter). -/
def inBoundsB (res : Resolution) (e : Ev) : Bool :=
  decide (e.x < res.width) && decide (e.y < res.height)

/-- A grayscale raster: intensity at `(row, column)`, background 0, as in
`np.zeros((h, w), dtype=np.uint8)`. -/
def GrayImage : Type := Nat → Nat → Nat

/-- `img[y, x] = v`. -/
def setPx (img : GrayImage) (y x v : Nat) : GrayImage :=
  fun y' x' => if y' = y ∧ x' = x then v else img y' x'

/-- `np.zeros((h, w))`: every pixel 0. -/
def zeroGray : GrayImage := fun _ _ => 0

/-- The per-event loop of `live_dual_display.py` / `combined_live_ON_bias_change.py`:
`for ev in events: img[y, x] = 255 if ev.polarity() else 127`. -/
def rasterLoop (events : List Ev) (img : GrayImage) : GrayImage :=
  events.foldl (fun im e => setPx im e.y e.x (if e.polarity then 255 else 127)) img

/-- `make_event_image` of `live_dual_display.py`: zero buffer, then the
per-event write loop; numpy raises `IndexError` (no image is produced) as
soon as some event indexes outside the buffer. -/
def make_event_image_loop (events : List Ev) (res : Resolution) : Option GrayImage :=
  if events.all (inBoundsB res) then some (rasterLoop events zeroGray) else none

/-- `(pol.astype(np.uint8) * 128) + 127` of `autobiasing_ON.py`: 1→255, 0→127. -/
def polVal (p : Bool) : Nat := (if p then 1 else 0) * 128 + 127

/-- `img[ys, xs] = vals`: numpy applies the scattered writes in order, so a
duplicate `(y, x)` index keeps the last value. Each list entry is
`(y, x, val)`. -/
def scatter (img : GrayImage) (triples : List (Nat × Nat × Nat)) : GrayImage :=
  triples.foldl (fun im t => setPx im t.1 t.2.1 t.2.2) img

/-- `make_event_image` of `autobiasing_ON.py`: extract the coordinate and
polarity columns, compute `vals = pol.astype(np.uint8) * 128 + 127`, and
scatter `img[ys, xs] = vals` into a zeroed `(h, w)` buffer; numpy raises
`IndexError` (no image is produced) when any index is out of range. -/
def make_event_image_vec (events : List Ev) (res : Resolution) : Option GrayImage :=
  if events.all (inBoundsB res) then
    let xs := events.map Ev.x
    let ys := events.map Ev.y
    let pol := events.map Ev.polarity
    let vals := pol.map polVal
    some (scatter zeroGray (ys.zip (xs.zip vals)))
  else none

/-- A 3-channel raster: value at `(row, column, channel)`, as in
`np.zeros((h, w, 3), dtype=np.uint8)`.  The source displays it with OpenCV,
whose channel order is B, G, R (the source comments read
`# Color channels: BGR`, `ON → green channel` for index 1 and
`OFF → red channel` for index 2). -/
def ColorImage : Type := Nat → Nat → Nat → Nat

/-- `img[y, x, c] = v`. -/
def setCh (img : ColorImage) (y x c v : Nat) : ColorImage :=
  fun y' x' c' => if y' = y ∧ x' = x ∧ c' = c then v else img y' x' c'

/-- `np.zeros((h, w, 3))`: all channels 0. -/
def zeroColor : ColorImage := fun _ _ _ => 0

/-- `img[ys[mask], xs[mask], c] = v`: write the constant `v` into channel `c`
at each listed `(y, x)` position. -/
def scatterCh (img : ColorImage) (pts : List (Nat × Nat)) (c v : Nat) : ColorImage :=
  pts.foldl (fun im p => setCh im p.1 p.2 c v) img

/-- `make_event_image` of `play_aedat.py` / `six_bias_record.py`:
`img[ys[pol], xs[pol], 1] = 255` (ON events, green channel) followed by
`img[ys[~pol], xs[~pol], 2] = 255` (OFF events, red channel) on a zeroed
`(h, w, 3)` buffer; numpy raises `IndexError` when any index is out of
range. -/
def make_event_image_color (events : List Ev) (res : Resolution) : Option ColorImage :=
  if events.all (inBoundsB res) then
    let onPts := (events.filter Ev.polarity).map (fun e => (e.y, e.x))
    let offPts := (events.filter (fun e => !e.polarity)).map (fun e => (e.y, e.x))
    some (scatterCh (scatterCh zeroColor onPts 1 255) offPts 2 255)
  else none

/-- Read one pixel of the BGR buffer in (R, G, B) order: the red value is
channel index 2, green index 1, blue index 0 (OpenCV layout, as the source
comments state). -/
def pixelRGB (img : ColorImage) (y x : Nat) : Nat × Nat × Nat :=
  (img y x 2, img y x 1, img y x 0)

/-- The last event of the batch hitting pixel `(y, x)`, if any. -/
def lastHit (events : List Ev) (y x : Nat) : Option Ev :=
  (events.filter (fun e => decide (e.y = y) && decide (e.x = x))).getLast?

/-! ## Autobias controller and rate estimator (`autobiasing_ON.py`) -/

/-- `LOW_RATE_THRESHOLD = 100_000` events/sec. -/
def LOW_RATE_THRESHOLD : ℚ := 100000

/-- `HIGH_RATE_THRESHOLD = 500_000` events/sec. -/
def HIGH_RATE_THRESHOLD : ℚ := 500000

/-- `MIN_COARSE = 5`. -/
def MIN_COARSE : Nat := 5

/-- `MAX_COARSE = 250`. -/
def MAX_COARSE : Nat := 250

/-- `HYSTERESIS_COUNT = 3`. -/
def HYSTERESIS_COUNT : Nat := 3

/-- `RATE_CHECK_INTERVAL = 1.0` seconds. -/
def RATE_CHECK_INTERVAL : ℚ := 1

/-- One On-channel coarse/fine register pair, as read back by
`getDavis346BiasCoarseFine(DAVIS.Davis346BiasCF.On)`. -/
structure Bias where
  coarse : Nat
  fine : Nat
deriving DecidableEq, Repr

/-- The state touched by the autobias branch of the main loop: the two
hysteresis counters and the On bias of each open camera (`cams`). -/
structure AutobiasState where
  low_count : Nat
  high_count : Nat
  cams : List Bias
deriving DecidableEq, Repr

/-- `set_on_threshold(coarse, fine)`: write the pair to every open camera. -/
def set_on_threshold (c f : Nat) (cams : List Bias) : List Bias :=
  cams.map (fun _ => ⟨c, f⟩)

/-- One pass through the autobias branch of `autobiasing_ON.py` once a rate
is available: read `(coarse, fine)` from `cams[0]`, then
* `rate < LOW_RATE_THRESHOLD`: `low_count += 1; high_count = 0`; if
  `low_count >= HYSTERESIS_COUNT and coarse > MIN_COARSE`, set all cameras
  to `(coarse - 1, fine)` and reset `low_count = 0`;
* `rate > HIGH_RATE_THRESHOLD`: `high_count += 1; low_count = 0`; if
  `high_count >= HYSTERESIS_COUNT and coarse < MAX_COARSE`, set all cameras
  to `(coarse + 1, fine)` and reset `high_count = 0`;
* otherwise `high_count = low_count = 0`.
With no open camera the Python code would fail reading `cams[0]`; that case
is left as the identity. -/
def rateTick (s : AutobiasState) (rate : ℚ) : AutobiasState :=
  match s.cams with
  | [] => s
  | b :: _ =>
    if rate < LOW_RATE_THRESHOLD then
      if HYSTERESIS_COUNT ≤ s.low_count + 1 ∧ MIN_COARSE < b.coarse then
        ⟨0, 0, set_on_threshold (b.coarse - 1) b.fine s.cams⟩
      else ⟨s.low_count + 1, 0, s.cams⟩
    else if HIGH_RATE_THRESHOLD < rate then
      if HYSTERESIS_COUNT ≤ s.high_count + 1 ∧ b.coarse < MAX_COARSE then
        ⟨0, 0, set_on_threshold (b.coarse + 1) b.fine s.cams⟩
      else ⟨0, s.high_count + 1, s.cams⟩
    else ⟨0, 0, s.cams⟩

/-- The rate-estimator state of the main loop: the running
`event_count` accumulator and the `last_check` wall-clock stamp. -/
structure RateEstState where
  event_count : Nat
  last_check : ℚ
deriving DecidableEq, Repr

/-- `event_count += ev_store.size()`: accumulate one polled batch's size. -/
def recordEvents (s : RateEstState) (n : Nat) : RateEstState :=
  ⟨s.event_count + n, s.last_check⟩

/-- The interval check of the main loop at wall-clock time `now` with
`sensor_count` open cameras: when `now - last_check >= RATE_CHECK_INTERVAL`
produce `rate_per_cam = event_count / ((now - last_check) * sensor_count)`
and reset `event_count = 0; last_check = now`; otherwise produce no rate
and leave the state untouched. -/
def rateEstTick (s : RateEstState) (now : ℚ) (sensor_count : Nat) :
    RateEstState × Option ℚ :=
  if RATE_CHECK_INTERVAL ≤ now - s.last_check then
    (⟨0, now⟩,
     some ((s.event_count : ℚ) / ((now - s.last_check) * (sensor_count : ℚ))))
  else (s, none)

/-! ## Recording latch (`six_bias_record.py`) -/

/-- The recorder as observable from one camera's writer: the explicit
`recording` boolean latch and the sequence of event batches persisted to
the AEDAT4 sink (the `MonoCameraWriter` is opened at startup, before any
recording is requested). -/
structure RecorderState where
  recording : Bool
  sink : List (List Ev)
deriving DecidableEq, Repr

/-- The per-batch write site of the main loop:
`if recording: writers[i].writeEvents(ev_store)` — the batch is appended to
the sink only while the latch is set. -/
def writeBatch (s : RecorderState) (b : List Ev) : RecorderState :=
  if s.recording then ⟨s.recording, s.sink ++ [b]⟩ else s

/-- Pressing `r`: `recording = True`. -/
def startRecording (s : RecorderState) : RecorderState :=
  ⟨true, s.sink⟩

/-! ## Offline threshold filter (`RECORDS/deneme.py`) -/

/-- `load_and_filter(csv_path, start_idx, threshold_us, max_rows)`: skip the
header and the first `start_idx` data rows, parse at most `max_rows` rows,
take `t0` as the first parsed row's timestamp, and keep the rows with
`timestamp - t0 <= threshold_us`.  `rows` is the data portion of the CSV
(the header line is not an event and is modelled away by `skiprows`,
which always drops it).  On an empty selection the Python code would fail
at `iloc[0]`; that case is left as the empty result. -/
def load_and_filter (rows : List Ev) (start_idx : Nat) (threshold_us : Int)
    (max_rows : Nat) : List Ev :=
  let window := (rows.drop start_idx).take max_rows
  match window with
  | [] => []
  | r0 :: _ =>
    window.filter (fun e => decide (e.timestamp - r0.timestamp ≤ threshold_us))

/-! ## Concrete inputs used by the spec's examples -/

/-- The spec's example batch: `[(t=0,x=1,y=1,ON), (t=1,x=2,y=2,OFF)]`. -/
def exBatch : List Ev := [⟨0, 1, 1, true⟩, ⟨1, 2, 2, false⟩]

/-- A 4×4 sensor. -/
def res4 : Resolution := ⟨4, 4⟩

/-- A batch whose first event has `x = 5 ≥ width = 4` (out of bounds on
`res4`) followed by an in-bounds event. -/
def oobBatch : List Ev := [⟨0, 5, 1, true⟩, ⟨1, 2, 2, false⟩]

/-- The timestamps of the offline-filter example in the spec:
`[100, 101, 105, 200]`. -/
def exampleRows : List Ev :=
  [⟨100, 0, 0, true⟩, ⟨101, 1, 0, true⟩, ⟨105, 2, 0, false⟩,
   ⟨200, 3, 0, true⟩]

/-- A coarse value inside the autobias guard rails. -/
def biasInRange (b : Bias) : Prop :=
  MIN_COARSE ≤ b.coarse ∧ b.coarse ≤ MAX_COARSE

instance (b : Bias) : Decidable (biasInRange b) := by
  unfold biasInRange; infer_instance

lemma rateTick_preserves_range (s : AutobiasState) (r : ℚ)
    (h : ∀ b ∈ s.cams, biasInRange b) :
    ∀ b ∈ (rateTick s r).cams, biasInRange b := by
  obtain ⟨lc, hcnt, cams⟩ := s
  cases cams with
  | nil => exact h
  | cons b0 rest =>
    intro b hb
    have h0 : biasInRange b0 := h b0 (List.mem_cons_self b0 rest)
    simp only [rateTick] at hb
    split_ifs at hb with h1 h2 h3 h4
    · simp only [set_on_threshold, List.mem_map] at hb
      obtain ⟨_, _, rfl⟩ := hb
      unfold biasInRange MIN_COARSE MAX_COARSE at h0 ⊢
      have := h2.2
      unfold MIN_COARSE at this
      constructor <;> simp <;> omega
    · exact h b hb
    · simp only [set_on_threshold, List.mem_map] at hb
      obtain ⟨_, _, rfl⟩ := hb
      unfold biasInRange MIN_COARSE MAX_COARSE at h0 ⊢
      have := h4.2
      unfold MAX_COARSE at this
      constructor <;> simp <;> omega
    · exact h b hb
    · exact h b hb

lemma foldl_rateTick_range (rates : List ℚ) :
    ∀ s : AutobiasState, (∀ b ∈ s.cams, biasInRange b) →
      ∀ b ∈ (rates.foldl rateTick s).cams, biasInRange b := by
  induction rates with
  | nil => intro s h; exact h
  | cons r rs ih => intro s h; exact ih _ (rateTick_preserves_range s r h)

/-- C1: on a tick whose rate is below `LOW_RATE_THRESHOLD` the controller
increments `low_count` and zeroes `high_count`; when the incremented
`low_count` reaches `HYSTERESIS_COUNT` while `coarse > MIN_COARSE` it
instead decrements the coarse value by exactly 1, writes the new pair to
every open camera at the unchanged fine value, and resets `low_count` to 0;
in particular 3 consecutive low-rate ticks from zeroed counters with
`coarse > MIN_COARSE` cause exactly one decrement. -/
theorem autobias_low_rate_hysteresis (lc hcnt : Nat) (b : Bias)
    (rest : List Bias) (rate : ℚ) (hr : rate < LOW_RATE_THRESHOLD) :
    (HYSTERESIS_COUNT ≤ lc + 1 ∧ MIN_COARSE < b.coarse →
      rateTick ⟨lc, hcnt, b :: rest⟩ rate =
        ⟨0, 0, set_on_threshold (b.coarse - 1) b.fine (b :: rest)⟩) ∧
    (¬(HYSTERESIS_COUNT ≤ lc + 1 ∧ MIN_COARSE < b.coarse) →
      rateTick ⟨lc, hcnt, b :: rest⟩ rate = ⟨lc + 1, 0, b :: rest⟩) ∧
    (∀ r2 r3 : ℚ, r2 < LOW_RATE_THRESHOLD → r3 < LOW_RATE_THRESHOLD →
      MIN_COARSE < b.coarse →
      rateTick (rateTick (rateTick ⟨0, 0, b :: rest⟩ rate) r2) r3 =
        ⟨0, 0, set_on_threshold (b.coarse - 1) b.fine (b :: rest)⟩) := by
  refine ⟨fun hgate => ?_, fun hgate => ?_, fun r2 r3 h2 h3 hco => ?_⟩
  · simp [rateTick, hr, hgate]
  · simp [rateTick, hr, hgate]
  · have t1 : rateTick ⟨0, 0, b :: rest⟩ rate = ⟨1, 0, b :: rest⟩ := by
      simp [rateTick, hr, HYSTERESIS_COUNT]
    have t2 : rateTick ⟨1, 0, b :: rest⟩ r2 = ⟨2, 0, b :: rest⟩ := by
      simp [rateTick, h2, HYSTERESIS_COUNT]
    rw [t1, t2]
    simp [rateTick, h3, HYSTERESIS_COUNT, hco]

theorem autobias_low_rate_hysteresis_witness :
    (0 : ℚ) < LOW_RATE_THRESHOLD ∧
    rateTick ⟨2, 0, [⟨6, 10⟩]⟩ 0 =
      ⟨0, 0, set_on_threshold 5 10 [⟨6, 10⟩]⟩ :=
  ⟨by decide,
   (autobias_low_rate_hysteresis 2 0 ⟨6, 10⟩ [] 0 (by decide)).1 (by decide)⟩

/-- C2: from any controller state whose cameras all carry a coarse value in
`[MIN_COARSE, MAX_COARSE]`, every sequence of rate ticks keeps every
camera's coarse value in `[MIN_COARSE, MAX_COARSE]`; moreover a tick never
decrements when `coarse ≤ MIN_COARSE` (it leaves the biases alone or
increments) and never increments when `coarse ≥ MAX_COARSE` (it leaves the
biases alone or decrements). -/
theorem autobias_coarse_bounds (s : AutobiasState)
    (h : ∀ b ∈ s.cams, biasInRange b) :
    (∀ rates : List ℚ, ∀ b ∈ (rates.foldl rateTick s).cams,
      MIN_COARSE ≤ b.coarse ∧ b.coarse ≤ MAX_COARSE) ∧
    (∀ (lc hcnt : Nat) (b0 : Bias) (rest : List Bias) (r : ℚ),
      ¬ MIN_COARSE < b0.coarse →
      (rateTick ⟨lc, hcnt, b0 :: rest⟩ r).cams = b0 :: rest ∨
      (rateTick ⟨lc, hcnt, b0 :: rest⟩ r).cams =
        set_on_threshold (b0.coarse + 1) b0.fine (b0 :: rest)) ∧
    (∀ (lc hcnt : Nat) (b0 : Bias) (rest : List Bias) (r : ℚ),
      ¬ b0.coarse < MAX_COARSE →
      (rateTick ⟨lc, hcnt, b0 :: rest⟩ r).cams = b0 :: rest ∨
      (rateTick ⟨lc, hcnt, b0 :: rest⟩ r).cams =
        set_on_threshold (b0.coarse - 1) b0.fine (b0 :: rest)) := by
  refine ⟨fun rates b hb => foldl_rateTick_range rates s h b hb,
    fun lc hcnt b0 rest r hmin => ?_, fun lc hcnt b0 rest r hmax => ?_⟩
  · simp only [rateTick]
    split_ifs with h1 h2 h3 h4
    · exact absurd h2.2 hmin
    · exact Or.inl rfl
    · exact Or.inr rfl
    · exact Or.inl rfl
    · exact Or.inl rfl
  · simp only [rateTick]
    split_ifs with h1 h2 h3 h4
    · exact Or.inr rfl
    · exact Or.inl rfl
    · exact absurd h4.2 hmax
    · exact Or.inl rfl
    · exact Or.inl rfl

theorem autobias_coarse_bounds_witness :
    (∀ b ∈ ({ low_count := 0, high_count := 0,
              cams := [⟨6, 10⟩] } : AutobiasState).cams, biasInRange b) ∧
    (∀ rates : List ℚ,
      ∀ b ∈ (rates.foldl rateTick ⟨0, 0, [⟨6, 10⟩]⟩).cams,
        MIN_COARSE ≤ b.coarse ∧ b.coarse ≤ MAX_COARSE) :=
  ⟨by decide, (autobias_coarse_bounds ⟨0, 0, [⟨6, 10⟩]⟩ (by decide)).1⟩

/-- C3: a tick whose rate lies in the dead band (neither below
`LOW_RATE_THRESHOLD` nor above `HIGH_RATE_THRESHOLD`) resets both
hysteresis counters to 0 and leaves every camera's bias unchanged;
consequently exactly 2 consecutive low-rate ticks from `low_count = 0`
followed by one in-band tick end with both counters 0 and the camera
biases (hence the coarse value) unchanged. -/
theorem autobias_inband_resets (hcnt : Nat) (b : Bias) (rest : List Bias)
    (r1 r2 r3 : ℚ) (h1 : r1 < LOW_RATE_THRESHOLD)
    (h2 : r2 < LOW_RATE_THRESHOLD) (h3lo : ¬ r3 < LOW_RATE_THRESHOLD)
    (h3hi : ¬ HIGH_RATE_THRESHOLD < r3) :
    (∀ t : AutobiasState, t.cams ≠ [] → rateTick t r3 = ⟨0, 0, t.cams⟩) ∧
    rateTick (rateTick (rateTick ⟨0, hcnt, b :: rest⟩ r1) r2) r3 =
      ⟨0, 0, b :: rest⟩ := by
  have hin : ∀ t : AutobiasState, t.cams ≠ [] → rateTick t r3 = ⟨0, 0, t.cams⟩ := by
    intro t hne
    obtain ⟨lc, hc, cams⟩ := t
    cases cams with
    | nil => exact absurd rfl hne
    | cons b0 rest0 => simp [rateTick, h3lo, h3hi]
  refine ⟨hin, ?_⟩
  have t1 : rateTick ⟨0, hcnt, b :: rest⟩ r1 = ⟨1, 0, b :: rest⟩ := by
    simp [rateTick, h1, HYSTERESIS_COUNT]
  have t2 : rateTick ⟨1, 0, b :: rest⟩ r2 = ⟨2, 0, b :: rest⟩ := by
    simp [rateTick, h2, HYSTERESIS_COUNT]
  rw [t1, t2]
  exact hin ⟨2, 0, b :: rest⟩ (by simp)

theorem autobias_inband_resets_witness :
    ((0 : ℚ) < LOW_RATE_THRESHOLD ∧ ¬ (200000 : ℚ) < LOW_RATE_THRESHOLD ∧
      ¬ HIGH_RATE_THRESHOLD < (200000 : ℚ)) ∧
    rateTick (rateTick (rateTick ⟨0, 7, [⟨6, 10⟩]⟩ 0) 0) 200000 =
      ⟨0, 0, [⟨6, 10⟩]⟩ :=
  ⟨⟨by decide, by decide, by decide⟩,
   (autobias_inband_resets 7 ⟨6, 10⟩ [] 0 0 200000 (by decide) (by decide)
     (by decide) (by decide)).2⟩

lemma foldl_recordEvents (ns : List Nat) :
    ∀ t : RateEstState,
      ns.foldl recordEvents t = ⟨t.event_count + ns.sum, t.last_check⟩ := by
  induction ns with
  | nil => intro t; simp
  | cons n tl ih =>
    intro t
    simp only [List.foldl_cons, List.sum_cons, ih, recordEvents]
    exact congrArg (fun k => RateEstState.mk k t.last_check) (by omega)

/-- C4: the rate estimator accumulates each polled batch's event count into
a running total without touching `last_check`; a tick at time `now` with
`now - last_check ≥ RATE_CHECK_INTERVAL` yields the rate
`event_count / ((now - last_check) × sensor_count)` and resets the
accumulator to 0 and `last_check` to `now`, while a tick before the
interval has elapsed yields no rate and leaves the state untouched. -/
theorem rate_estimator_contract (s : RateEstState) (ns : List Nat) (now : ℚ)
    (sensor_count : Nat) :
    ((ns.foldl recordEvents s).event_count = s.event_count + ns.sum ∧
      (ns.foldl recordEvents s).last_check = s.last_check) ∧
    (RATE_CHECK_INTERVAL ≤ now - s.last_check →
      rateEstTick s now sensor_count =
        (⟨0, now⟩, some ((s.event_count : ℚ) /
          ((now - s.last_check) * (sensor_count : ℚ))))) ∧
    (now - s.last_check < RATE_CHECK_INTERVAL →
      rateEstTick s now sensor_count = (s, none)) := by
  refine ⟨?_, fun hel => ?_, fun hne => ?_⟩
  · rw [foldl_recordEvents]
    exact ⟨rfl, rfl⟩
  · simp [rateEstTick, hel]
  · simp [rateEstTick, not_le.mpr hne]

theorem rate_estimator_contract_witness :
    RATE_CHECK_INTERVAL ≤ (1 : ℚ) - 0 ∧
    rateEstTick ⟨5, 0⟩ 1 2 =
      (⟨0, 1⟩, some (((5 : Nat) : ℚ) / (((1 : ℚ) - 0) * ((2 : Nat) : ℚ)))) :=
  ⟨by simp [RATE_CHECK_INTERVAL],
   (rate_estimator_contract ⟨5, 0⟩ [] 1 2).2.1 (by simp [RATE_CHECK_INTERVAL])⟩

lemma foldl_writeBatch_off (batches : List (List Ev)) :
    ∀ t : RecorderState, t.recording = false → batches.foldl writeBatch t = t := by
  induction batches with
  | nil => intro t _; rfl
  | cons b bs ih =>
    intro t h
    have hw : writeBatch t b = t := by simp [writeBatch, h]
    rw [List.foldl_cons, hw]
    exact ih t h

lemma foldl_writeBatch_on (batches : List (List Ev)) :
    ∀ t : RecorderState, t.recording = true →
      batches.foldl writeBatch t = ⟨true, t.sink ++ batches⟩ := by
  induction batches with
  | nil => intro t h; simp [← h]
  | cons b bs ih =>
    intro t h
    have hw : writeBatch t b = ⟨true, t.sink ++ [b]⟩ := by
      simp [writeBatch, h]
    rw [List.foldl_cons, hw, ih ⟨true, t.sink ++ [b]⟩ rfl]
    simp

/-- C8: with the recording latch off, any sequence of event batches pushed
through the write site leaves the persisted sink unchanged (and the latch
stays off even though the sink is open); after the latch is set, every
subsequent batch is appended to the sink in submission order. -/
theorem recorder_latch (s : RecorderState) (pre post : List (List Ev))
    (h : s.recording = false) :
    (pre.foldl writeBatch s).sink = s.sink ∧
    (pre.foldl writeBatch s).recording = false ∧
    (post.foldl writeBatch (startRecording (pre.foldl writeBatch s))).sink =
      s.sink ++ post := by
  rw [foldl_writeBatch_off pre s h]
  refine ⟨rfl, h, ?_⟩
  rw [foldl_writeBatch_on post (startRecording s) rfl]
  rfl

theorem recorder_latch_witness :
    ({ recording := false, sink := [] } : RecorderState).recording = false ∧
    (([[⟨0, 1, 1, true⟩]] : List (List Ev)).foldl writeBatch
        ⟨false, []⟩).sink = [] ∧
    (([[⟨0, 1, 1, true⟩]] : List (List Ev)).foldl writeBatch
        ⟨false, []⟩).recording = false ∧
    (([[⟨2, 3, 3, false⟩], [⟨4, 0, 0, true⟩]] : List (List Ev)).foldl
        writeBatch (startRecording (([[⟨0, 1, 1, true⟩]] :
          List (List Ev)).foldl writeBatch ⟨false, []⟩))).sink =
      [] ++ [[⟨2, 3, 3, false⟩], [⟨4, 0, 0, true⟩]] :=
  ⟨rfl, recorder_latch ⟨false, []⟩ [[⟨0, 1, 1, true⟩]]
    [[⟨2, 3, 3, false⟩], [⟨4, 0, 0, true⟩]] rfl⟩

/-- C9: `load_and_filter` selects exactly the window of rows
`[start_idx, start_idx + max_rows)`, and within it retains, in their
original order, exactly the rows whose `dt = timestamp - timestamp of the
window's first row` is at most the threshold; on timestamps
`[100, 101, 105, 200]` with start index 0 and threshold 5 it keeps the
first three rows and drops the last. -/
theorem offline_threshold_filter (rows : List Ev) (s m : Nat) (th : Int)
    (r0 : Ev) (h : ((rows.drop s).take m).head? = some r0) :
    (∀ e, e ∈ load_and_filter rows s th m ↔
      e ∈ (rows.drop s).take m ∧ e.timestamp - r0.timestamp ≤ th) ∧
    (load_and_filter rows s th m).Sublist ((rows.drop s).take m) ∧
    load_and_filter exampleRows 0 5 1000000 =
      [⟨100, 0, 0, true⟩, ⟨101, 1, 0, true⟩, ⟨105, 2, 0, false⟩] := by
  cases hw : (rows.drop s).take m with
  | nil => rw [hw] at h; cases h
  | cons a tail =>
    rw [hw] at h
    have ha : a = r0 := by
      simpa using h
    subst ha
    refine ⟨fun e => ?_, ?_, by decide⟩
    · simp only [load_and_filter, hw, List.mem_filter, decide_eq_true_eq]
    · simp only [load_and_filter, hw]
      exact List.filter_sublist _

theorem offline_threshold_filter_witness :
    ((exampleRows.drop 0).take 1000000).head? = some ⟨100, 0, 0, true⟩ ∧
    load_and_filter exampleRows 0 5 1000000 =
      [⟨100, 0, 0, true⟩, ⟨101, 1, 0, true⟩, ⟨105, 2, 0, false⟩] :=
  ⟨by decide,
   (offline_threshold_filter exampleRows 0 1000000 5 ⟨100, 0, 0, true⟩
     (by decide)).2.2⟩

/-! ## Rasterizer lemmas -/

lemma polVal_eq (p : Bool) : polVal p = if p then 255 else 127 := by
  cases p <;> rfl

lemma scatter_cons (img : GrayImage) (t : Nat × Nat × Nat)
    (ts : List (Nat × Nat × Nat)) :
    scatter img (t :: ts) = scatter (setPx img t.1 t.2.1 t.2.2) ts := rfl

lemma rasterLoop_cons (e : Ev) (tl : List Ev) (img : GrayImage) :
    rasterLoop (e :: tl) img =
      rasterLoop tl (setPx img e.y e.x (if e.polarity then 255 else 127)) := rfl

lemma scatter_eq_rasterLoop (events : List Ev) :
    ∀ img : GrayImage,
      scatter img ((events.map Ev.y).zip ((events.map Ev.x).zip
        ((events.map Ev.polarity).map polVal))) = rasterLoop events img := by
  induction events with
  | nil => intro img; rfl
  | cons e tl ih =>
    intro img
    simp only [List.map_cons, List.zip_cons_cons, scatter_cons, rasterLoop_cons,
      polVal_eq]
    exact ih _

lemma rasterLoop_pixel (events : List Ev) :
    ∀ (img : GrayImage) (y x : Nat),
      rasterLoop events img y x =
        match lastHit events y x with
        | none => img y x
        | some e => if e.polarity then 255 else 127 := by
  induction events using List.reverseRecOn with
  | nil => intro img y x; rfl
  | append_singleton l e ih =>
    intro img y x
    have hstep : rasterLoop (l ++ [e]) img =
        setPx (rasterLoop l img) e.y e.x (if e.polarity then 255 else 127) := by
      simp [rasterLoop, List.foldl_append]
    rw [hstep]
    by_cases hp : e.y = y ∧ e.x = x
    · have hfilter : lastHit (l ++ [e]) y x = some e := by
        simp [lastHit, List.filter_append, hp.1, hp.2]
      rw [hfilter]
      simp [setPx, hp.1.symm, hp.2.symm]
    · have hpb : (decide (e.y = y) && decide (e.x = x)) = false := by
        rcases not_and_or.mp hp with h | h <;> simp [h]
      have hfilter : lastHit (l ++ [e]) y x = lastHit l y x := by
        simp [lastHit, List.filter_append, hpb]
      rw [hfilter]
      have hne : ¬(y = e.y ∧ x = e.x) := fun hc => hp ⟨hc.1.symm, hc.2.symm⟩
      rw [setPx, if_neg hne]
      exact ih img y x

lemma scatterCh_cons (img : ColorImage) (p : Nat × Nat)
    (tl : List (Nat × Nat)) (c v : Nat) :
    scatterCh img (p :: tl) c v = scatterCh (setCh img p.1 p.2 c v) tl c v := rfl

lemma scatterCh_pixel (pts : List (Nat × Nat)) :
    ∀ (img : ColorImage) (c v y x c' : Nat),
      scatterCh img pts c v y x c' =
        if c' = c ∧ (y, x) ∈ pts then v else img y x c' := by
  induction pts with
  | nil => intro img c v y x c'; simp [scatterCh]
  | cons p tl ih =>
    intro img c v y x c'
    rw [scatterCh_cons, ih]
    by_cases h1 : c' = c ∧ (y, x) ∈ tl
    · simp [h1]
    · rw [if_neg h1, setCh]
      by_cases h2 : y = p.1 ∧ x = p.2 ∧ c' = c
      · rw [if_pos h2, if_pos]
        exact ⟨h2.2.2,
          by rw [List.mem_cons]; left; rw [Prod.ext_iff]; exact ⟨h2.1, h2.2.1⟩⟩
      · rw [if_neg h2, if_neg]
        intro hcon
        rcases List.mem_cons.mp hcon.2 with hh | hh
        · have := Prod.ext_iff.mp hh
          exact h2 ⟨this.1, this.2, hcon.1⟩
        · exact h1 ⟨hcon.1, hh⟩

/-- C5: for an in-bounds batch the vectorized Mono rasterizer returns an
image in which every pixel carries 255 when the last event hitting it (in
batch order) is ON, 127 when it is OFF, and 0 when no event hits it; on
the spec's example batch over a 4×4 sensor, pixel (1,1) is 255, pixel
(2,2) is 127 and every other pixel is 0. -/
theorem mono_rasterizer_polarity_map (events : List Ev) (res : Resolution)
    (h : events.all (inBoundsB res) = true) :
    ∃ img, make_event_image_vec events res = some img ∧
      (∀ y x, img y x =
        match lastHit events y x with
        | none => 0
        | some e => if e.polarity then 255 else 127) ∧
      (∀ img4, make_event_image_vec exBatch res4 = some img4 →
        img4 1 1 = 255 ∧ img4 2 2 = 127 ∧
        ∀ y x, ¬(y = 1 ∧ x = 1) → ¬(y = 2 ∧ x = 2) → img4 y x = 0) := by
  have hsome : make_event_image_vec events res =
      some (rasterLoop events zeroGray) := by
    simp only [make_event_image_vec, h, if_true]
    rw [scatter_eq_rasterLoop]
  refine ⟨rasterLoop events zeroGray, hsome, fun y x => ?_, fun img4 h4 => ?_⟩
  · rw [rasterLoop_pixel]
    cases hL : lastHit events y x
    · rfl
    · rfl
  · have hc : make_event_image_vec exBatch res4 =
        some (setPx (setPx zeroGray 1 1 255) 2 2 127) := rfl
    rw [hc] at h4
    have himg : img4 = setPx (setPx zeroGray 1 1 255) 2 2 127 :=
      (Option.some.inj h4).symm
    subst himg
    refine ⟨rfl, rfl, fun y x h1 h2 => ?_⟩
    simp [setPx, zeroGray, h1, h2]

theorem mono_rasterizer_polarity_map_witness :
    exBatch.all (inBoundsB res4) = true ∧
    (∃ img, make_event_image_vec exBatch res4 = some img ∧
      (∀ y x, img y x =
        match lastHit exBatch y x with
        | none => 0
        | some e => if e.polarity then 255 else 127) ∧
      (∀ img4, make_event_image_vec exBatch res4 = some img4 →
        img4 1 1 = 255 ∧ img4 2 2 = 127 ∧
        ∀ y x, ¬(y = 1 ∧ x = 1) → ¬(y = 2 ∧ x = 2) → img4 y x = 0)) :=
  ⟨by decide, mono_rasterizer_polarity_map exBatch res4 (by decide)⟩

/-- C10: on every in-bounds batch and every resolution the per-event-loop
grayscale rasterizer and the vectorized numpy grayscale rasterizer return
identical images. -/
theorem loop_vec_rasterizer_equiv (events : List Ev) (res : Resolution)
    (h : events.all (inBoundsB res) = true) :
    make_event_image_loop events res = make_event_image_vec events res := by
  simp only [make_event_image_loop, make_event_image_vec, h, if_true]
  rw [scatter_eq_rasterLoop]

theorem loop_vec_rasterizer_equiv_witness :
    exBatch.all (inBoundsB res4) = true ∧
    make_event_image_loop exBatch res4 = make_event_image_vec exBatch res4 :=
  ⟨by decide, loop_vec_rasterizer_equiv exBatch res4 (by decide)⟩

/-- C7 counterexample: on a batch whose first event is out of bounds and
whose second event is in bounds, the vectorized rasterizer produces no
image at all — the numpy scatter raises for the whole batch instead of
rejecting the bad event and continuing with the remaining events. -/
theorem rasterizer_oob_counterexample :
    make_event_image_vec oobBatch res4 = none ∧
    ∀ img, make_event_image_vec oobBatch res4 ≠ some img := by
  have hn : make_event_image_vec oobBatch res4 = none := rfl
  refine ⟨hn, fun img hc => ?_⟩
  rw [hn] at hc
  cases hc

/-- C7 (amended): any batch containing an out-of-bounds event makes the
vectorized rasterizer fail as a whole (it returns no image, so the
remaining events of the batch are not processed), and on no input does a
produced image carry a non-background value outside the resolution — the
rasterizer never writes past the buffer bounds. -/
theorem rasterizer_oob_rejects_batch (events : List Ev) (res : Resolution)
    (h : ∃ e ∈ events, inBoundsB res e = false) :
    make_event_image_vec events res = none ∧
    (∀ (events2 : List Ev) (res2 : Resolution) (img : GrayImage),
      make_event_image_vec events2 res2 = some img →
      ∀ y x, img y x ≠ 0 → y < res2.height ∧ x < res2.width) := by
  constructor
  · have hall : events.all (inBoundsB res) = false := by
      rcases Bool.eq_false_or_eq_true (events.all (inBoundsB res)) with hx | hx
      · obtain ⟨e, he, hf⟩ := h
        rw [List.all_eq_true] at hx
        have := hx e he
        rw [hf] at this
        simp at this
      · exact hx
    simp [make_event_image_vec, hall]
  · intro events2 res2 img hsome y x hnz
    have hall : events2.all (inBoundsB res2) = true := by
      rcases Bool.eq_false_or_eq_true (events2.all (inBoundsB res2)) with hx | hx
      · exact hx
      · simp [make_event_image_vec, hx] at hsome
    have himg : img = rasterLoop events2 zeroGray := by
      have h2 : make_event_image_vec events2 res2 =
          some (rasterLoop events2 zeroGray) := by
        simp only [make_event_image_vec, hall, if_true]
        rw [scatter_eq_rasterLoop]
      rw [h2] at hsome
      exact (Option.some.inj hsome).symm
    subst himg
    rw [rasterLoop_pixel] at hnz
    cases hL : lastHit events2 y x with
    | none => rw [hL] at hnz; exact absurd rfl hnz
    | some e =>
      rw [hL] at hnz
      have hmem : e ∈ events2.filter
          (fun e2 => decide (e2.y = y) && decide (e2.x = x)) := by
        obtain ⟨hne, he⟩ :=
          List.mem_getLast?_eq_getLast (show e ∈ _ from hL)
        rw [he]
        exact List.getLast_mem hne
      have hin := List.mem_filter.mp hmem
      have hyx : e.y = y ∧ e.x = x := by
        have h2 := hin.2
        simp at h2
        exact h2
      have hb : inBoundsB res2 e = true := List.all_eq_true.mp hall e hin.1
      unfold inBoundsB at hb
      simp at hb
      obtain ⟨hw, hh⟩ := hb
      obtain ⟨hy, hx2⟩ := hyx
      exact ⟨by omega, by omega⟩

theorem rasterizer_oob_rejects_batch_witness :
    (∃ e ∈ oobBatch, inBoundsB res4 e = false) ∧
    (make_event_image_vec oobBatch res4 = none ∧
      (∀ (events2 : List Ev) (res2 : Resolution) (img : GrayImage),
        make_event_image_vec events2 res2 = some img →
        ∀ y x, img y x ≠ 0 → y < res2.height ∧ x < res2.width)) :=
  ⟨by decide, rasterizer_oob_rejects_batch oobBatch res4 (by decide)⟩

/-- C6 (amended): for an in-bounds batch the dual-color rasterizer sets
channel index 1 (green in the buffer's B,G,R layout) to 255 exactly at the
pixels hit by an ON event, channel index 2 (red) to 255 exactly at the
pixels hit by an OFF event — the two polarity writes are independent
masks, so a pixel hit by both polarities gets both — and leaves channel 0
(blue) at 0; on the spec's example batch over a 4×4 sensor the buffer
triples in index order (B,G,R) are (0,255,0) at pixel (1,1) and (0,0,255)
at pixel (2,2), i.e. (0,255,0) and (255,0,0) in (R,G,B) order, and every
other pixel is (0,0,0). -/
theorem dualcolor_channel_mapping (events : List Ev) (res : Resolution)
    (h : events.all (inBoundsB res) = true) :
    ∃ img, make_event_image_color events res = some img ∧
      (∀ y x, img y x 1 =
        if (y, x) ∈ (events.filter Ev.polarity).map (fun e => (e.y, e.x))
        then 255 else 0) ∧
      (∀ y x, img y x 2 =
        if (y, x) ∈ (events.filter (fun e => !e.polarity)).map
          (fun e => (e.y, e.x)) then 255 else 0) ∧
      (∀ y x, img y x 0 = 0) ∧
      (∀ imgc, make_event_image_color exBatch res4 = some imgc →
        pixelRGB imgc 1 1 = (0, 255, 0) ∧ pixelRGB imgc 2 2 = (255, 0, 0) ∧
        (imgc 1 1 0, imgc 1 1 1, imgc 1 1 2) = (0, 255, 0) ∧
        (imgc 2 2 0, imgc 2 2 1, imgc 2 2 2) = (0, 0, 255) ∧
        ∀ y x, ¬(y = 1 ∧ x = 1) → ¬(y = 2 ∧ x = 2) →
          pixelRGB imgc y x = (0, 0, 0)) := by
  have hsome : make_event_image_color events res =
      some (scatterCh (scatterCh zeroColor
        ((events.filter Ev.polarity).map (fun e => (e.y, e.x))) 1 255)
        ((events.filter (fun e => !e.polarity)).map (fun e => (e.y, e.x)))
        2 255) := by
    simp only [make_event_image_color, h, if_true]
  refine ⟨_, hsome, fun y x => ?_, fun y x => ?_, fun y x => ?_,
    fun imgc hc => ?_⟩
  · rw [scatterCh_pixel, scatterCh_pixel]
    rw [if_neg (fun hcon => absurd hcon.1 (by decide))]
    by_cases hm : (y, x) ∈ (events.filter Ev.polarity).map (fun e => (e.y, e.x))
    · rw [if_pos ⟨rfl, hm⟩, if_pos hm]
    · rw [if_neg (fun hcon => hm hcon.2), if_neg hm]
      rfl
  · rw [scatterCh_pixel]
    by_cases hm : (y, x) ∈ (events.filter (fun e => !e.polarity)).map
        (fun e => (e.y, e.x))
    · rw [if_pos ⟨rfl, hm⟩, if_pos hm]
    · rw [if_neg (fun hcon => hm hcon.2), if_neg hm, scatterCh_pixel]
      rw [if_neg (fun hcon => absurd hcon.1 (by decide))]
      rfl
  · rw [scatterCh_pixel, scatterCh_pixel]
    rw [if_neg (fun hcon => absurd hcon.1 (by decide))]
    rw [if_neg (fun hcon => absurd hcon.1 (by decide))]
    rfl
  · have hcc : make_event_image_color exBatch res4 =
        some (scatterCh (scatterCh zeroColor [(1, 1)] 1 255) [(2, 2)] 2 255) :=
      rfl
    rw [hcc] at hc
    have himg : imgc = scatterCh (scatterCh zeroColor [(1, 1)] 1 255)
        [(2, 2)] 2 255 := (Option.some.inj hc).symm
    subst himg
    refine ⟨rfl, rfl, rfl, rfl, fun y x h1 h2 => ?_⟩
    simp [pixelRGB, scatterCh, setCh, zeroColor, h1, h2]

/-- C6 counterexample: on the spec's example batch the pixel (2,2) of the
dual-color raster read in (R,G,B) order is (255,0,0) — red, written by the
OFF event into buffer channel index 2 — and not (0,0,255) as the claim
states; (0,0,255) is that pixel's triple in the buffer's native (B,G,R)
index order. -/
theorem dualcolor_rgb_order_counterexample :
    (∃ imgc, make_event_image_color exBatch res4 = some imgc) ∧
    (∀ imgc, make_event_image_color exBatch res4 = some imgc →
      pixelRGB imgc 2 2 = (255, 0, 0)) ∧
    ¬(∀ imgc, make_event_image_color exBatch res4 = some imgc →
      pixelRGB imgc 2 2 = (0, 0, 255)) := by
  have hcc : make_event_image_color exBatch res4 =
      some (scatterCh (scatterCh zeroColor [(1, 1)] 1 255) [(2, 2)] 2 255) :=
    rfl
  refine ⟨⟨_, hcc⟩, fun imgc hc => ?_, fun hall => ?_⟩
  · rw [hcc] at hc
    rw [← Option.some.inj hc]
    rfl
  · have h1 := hall _ hcc
    have h2 : pixelRGB (scatterCh (scatterCh zeroColor [(1, 1)] 1 255)
        [(2, 2)] 2 255) 2 2 = (255, 0, 0) := rfl
    rw [h2] at h1
    exact absurd h1 (by decide)

theorem dualcolor_channel_mapping_witness :
    exBatch.all (inBoundsB res4) = true ∧
    (∃ img, make_event_image_color exBatch res4 = some img ∧
      (∀ y x, img y x 1 =
        if (y, x) ∈ (exBatch.filter Ev.polarity).map (fun e => (e.y, e.x))
        then 255 else 0) ∧
      (∀ y x, img y x 2 =
        if (y, x) ∈ (exBatch.filter (fun e => !e.polarity)).map
          (fun e => (e.y, e.x)) then 255 else 0) ∧
      (∀ y x, img y x 0 = 0) ∧
      (∀ imgc, make_event_image_color exBatch res4 = some imgc →
        pixelRGB imgc 1 1 = (0, 255, 0) ∧ pixelRGB imgc 2 2 = (255, 0, 0) ∧
        (imgc 1 1 0, imgc 1 1 1, imgc 1 1 2) = (0, 255, 0) ∧
        (imgc 2 2 0, imgc 2 2 1, imgc 2 2 2) = (0, 0, 255) ∧
        ∀ y x, ¬(y = 1 ∧ x = 1) → ¬(y = 2 ∧ x = 2) →
          pixelRGB imgc y x = (0, 0, 0))) :=
  ⟨by decide, dualcolor_channel_mapping exBatch res4 (by decide)⟩
